import Mathlib

set_option maxRecDepth 20000

/-!
Verification of the pngme PNG-chunk codec.

Shallow embedding of `src/chunk_type.rs` and `src/chunk.rs` (with the
container of `src/png.rs`, absent from the sources, modelled from the
specification).  Bytes are `Nat` values below 256, byte buffers are
`List Nat`, and the fallible Rust conversions return `Except PngError`.
-/

namespace Pngme

/-! ## Error kinds

`chunk_type.rs` fails with `InvalidTypeCodeError`, `chunk.rs` with
`InvalidByteSequence` (the checksum-mismatch error), and the container
rejects a bad signature.  The spec calls these `InvalidTypeCode`,
`ChecksumMismatch` and `InvalidSignature`. -/

inductive PngError where
  | invalidTypeCode
  | invalidByteSequence
  | invalidSignature
  deriving DecidableEq

instance {ε α : Type} [DecidableEq ε] [DecidableEq α] : DecidableEq (Except ε α) :=
  fun a b =>
    match a, b with
    | .error e, .error f => decidable_of_iff (e = f) (by simp)
    | .ok x, .ok y => decidable_of_iff (x = y) (by simp)
    | .error _, .ok _ => isFalse (by intro h; cases h)
    | .ok _, .error _ => isFalse (by intro h; cases h)

/-! ## ChunkType (src/chunk_type.rs) -/

/-- Embeds `byte.is_ascii_lowercase() || byte.is_ascii_uppercase()`:
the byte is an ASCII letter. -/
def isLetterByte (b : Nat) : Bool :=
  (97 ≤ b && b ≤ 122) || (65 ≤ b && b ≤ 90)

/-- Embeds `struct ChunkType { type_code: [u8; 4] }`; the four bytes are a
`List Nat` of length 4. -/
structure ChunkType where
  typeCode : List Nat
  deriving DecidableEq

/-- The representation invariant of the Rust `ChunkType`: the private
`type_code` field holds exactly 4 bytes and every public constructor
(`FromStr`, `TryFrom<[u8; 4]>`) only accepts ASCII letters. -/
def ChunkType.wf (ct : ChunkType) : Prop :=
  ct.typeCode.length = 4 ∧ ∀ b ∈ ct.typeCode, isLetterByte b = true

instance (ct : ChunkType) : Decidable ct.wf := by
  unfold ChunkType.wf; infer_instance

/-- Embeds `ChunkType::bytes`. -/
def ChunkType.bytes (ct : ChunkType) : List Nat :=
  ct.typeCode

/-- Embeds `impl TryFrom<[u8; 4]> for ChunkType`: every byte must be an
ASCII letter, otherwise `InvalidTypeCodeError`.  The Rust loop returns the
error at the first non-letter byte; extensionally this is an `all` test. -/
def ChunkType.try_from (typeCode : List Nat) : Except PngError ChunkType :=
  if typeCode.all isLetterByte then .ok ⟨typeCode⟩ else .error .invalidTypeCode

/-- UTF-8 encoded size of a Unicode code point, as used by Rust `str::len`
(which counts bytes, not chars). -/
def utf8Len (c : Nat) : Nat :=
  if c < 0x80 then 1 else if c < 0x800 then 2 else if c < 0x10000 then 3 else 4

/-- Byte length of a string given as its list of Unicode code points:
Rust `s.len()`. -/
def strByteLength (s : List Nat) : Nat :=
  (s.map utf8Len).sum

/-- Embeds `impl FromStr for ChunkType`.  A string is its list of Unicode
code points.  The Rust code first rejects unless `s.len() == 4` (byte
length), then walks `s.chars()`, rejecting at the first char that is not an
ASCII letter and storing `c as u8` otherwise.  When every char is an ASCII
letter the char count equals the byte count, so exactly the four array
slots are written with the code points themselves, and the out-of-bounds
write `type_code[i]` for `i ≥ 4` is unreachable. -/
def ChunkType.from_str (s : List Nat) : Except PngError ChunkType :=
  if strByteLength s ≠ 4 then .error .invalidTypeCode
  else if s.all isLetterByte then .ok ⟨s⟩ else .error .invalidTypeCode

/-- Embeds `ChunkType::is_critical`: bit 5 of byte 0 must be clear. -/
def ChunkType.is_critical (ct : ChunkType) : Bool :=
  if ct.typeCode.getD 0 0 &&& (1 <<< 5) ≠ 0 then false else true

/-- Embeds `ChunkType::is_public`: bit 5 of byte 1 must be clear. -/
def ChunkType.is_public (ct : ChunkType) : Bool :=
  if ct.typeCode.getD 1 0 &&& (1 <<< 5) ≠ 0 then false else true

/-- Embeds `ChunkType::is_reserved_bit_valid`: bit 5 of byte 2 must be
clear. -/
def ChunkType.is_reserved_bit_valid (ct : ChunkType) : Bool :=
  if ct.typeCode.getD 2 0 &&& (1 <<< 5) ≠ 0 then false else true

/-- Embeds `ChunkType::is_safe_to_copy`: bit 5 of byte 3 must be set. -/
def ChunkType.is_safe_to_copy (ct : ChunkType) : Bool :=
  if ct.typeCode.getD 3 0 &&& (1 <<< 5) == 0 then false else true

/-- Embeds `ChunkType::is_valid`: the loop returns `false` at the first
non-letter byte, then the reserved bit is tested. -/
def ChunkType.is_valid (ct : ChunkType) : Bool :=
  ct.typeCode.all isLetterByte && ct.is_reserved_bit_valid

/-! ## CRC-32/ISO-HDLC (the `crc` crate's `CRC_32_ISO_HDLC`)

`chunk.rs` delegates to `crc::Crc::<u32>::new(&crc::CRC_32_ISO_HDLC)`,
the reflected CRC-32 used by zlib and PNG: polynomial `0xEDB88320`
(reflected `0x04C11DB7`), initial state `0xFFFFFFFF`, final xor
`0xFFFFFFFF`.  The bit-at-a-time form embedded here is the standard
table-free equivalent of the crate's table-driven loop; it reproduces the
crate's published check value `crc32 "123456789" = 0xCBF43926` and the
repository test vector (see `crc32_check_value` below). -/

/-- One shift-and-conditionally-xor step of the reflected CRC-32. -/
def crcStep (s : Nat) : Nat :=
  if s % 2 = 1 then (s / 2) ^^^ 0xEDB88320 else s / 2

/-- Folding one message byte into the CRC state: xor the byte into the low
bits, then run eight bit steps. -/
def crcUpdate (s b : Nat) : Nat :=
  crcStep^[8] (s ^^^ b)

/-- Embeds `X25.checksum(bytes)` for `CRC_32_ISO_HDLC`. -/
def crc32 (msg : List Nat) : Nat :=
  (msg.foldl crcUpdate 0xFFFFFFFF) ^^^ 0xFFFFFFFF

/-! ## Chunk (src/chunk.rs) -/

/-- Embeds `struct Chunk`. -/
structure Chunk where
  length : Nat
  chunk_type : ChunkType
  chunk_data : List Nat
  crc : Nat
  deriving DecidableEq

/-- Big-endian bytes of a `u32`: embeds `u32::to_be_bytes`. -/
def u32ToBeBytes (n : Nat) : List Nat :=
  [n / 2 ^ 24 % 256, n / 2 ^ 16 % 256, n / 2 ^ 8 % 256, n % 256]

/-- Value of big-endian bytes: embeds `u32::from_be_bytes` on the 4-byte
buffers produced by the reads below. -/
def u32FromBeBytes (l : List Nat) : Nat :=
  l.foldl (fun acc b => acc * 256 + b) 0

/-- Models one `Read::read` call filling an `n`-byte zero-initialized
buffer from a `&[u8]` source: `min n src.length` bytes are copied and the
rest of the buffer keeps its zeros.  `Read` on a byte slice never fails,
so the `?` operators in `Chunk::try_from` never produce an error; a short
source only leaves trailing zeros in the destination buffer. -/
def readPad (src : List Nat) (n : Nat) : List Nat :=
  src.take n ++ List.replicate (n - src.length) 0

/-- The length field read by `Chunk::try_from`: first 4 bytes, big-endian
(cursor starts at offset 0). -/
def Chunk.readLen (b : List Nat) : Nat :=
  u32FromBeBytes (readPad b 4)

/-- The type-code bytes read by `Chunk::try_from`: 4 bytes after the
length field (cursor at offset 4). -/
def Chunk.readTypeBytes (b : List Nat) : List Nat :=
  readPad (b.drop 4) 4

/-- The data bytes read by `Chunk::try_from`: `length` bytes after the
type code (cursor at offset 8), zero-padded if the buffer is short. -/
def Chunk.readData (b : List Nat) : List Nat :=
  readPad ((b.drop 4).drop 4) (Chunk.readLen b)

/-- The stored CRC read by `Chunk::try_from`: 4 bytes after the data
(cursor at offset `8 + length`), big-endian. -/
def Chunk.readCrc (b : List Nat) : Nat :=
  u32FromBeBytes (readPad (((b.drop 4).drop 4).drop (Chunk.readLen b)) 4)

/-- Embeds `impl TryFrom<&[u8]> for Chunk`.  The four sequential reads of
the Rust code are the pure `read*` functions above, each taking the bytes
the cursor has advanced past; the reads themselves never fail.  The type
code is validated right after it is read (so a bad type code is reported
before the checksum is examined), then the checksum recomputed over type
bytes ++ data is compared with the stored CRC. -/
def Chunk.try_from (value : List Nat) : Except PngError Chunk :=
  match ChunkType.try_from (Chunk.readTypeBytes value) with
  | .error e => .error e
  | .ok chunk_type =>
    if Chunk.readCrc value ≠ crc32 (Chunk.readTypeBytes value ++ Chunk.readData value) then
      .error .invalidByteSequence
    else
      .ok { length := Chunk.readLen value
            chunk_type
            chunk_data := Chunk.readData value
            crc := Chunk.readCrc value }

/-- Embeds `Chunk::new`: `length` is `data.len() as u32` (the cast
truncates modulo `2^32`), and the CRC is computed over the type bytes
followed by the data. -/
def Chunk.new (chunk_type : ChunkType) (data : List Nat) : Chunk :=
  { length := data.length % 2 ^ 32
    chunk_type
    chunk_data := data
    crc := crc32 (chunk_type.bytes ++ data) }

/-- Embeds `Chunk::data`. -/
def Chunk.data (c : Chunk) : List Nat :=
  c.chunk_data

/-- Embeds `Chunk::as_bytes`: length (4 bytes BE) ++ type bytes ++ data ++
crc (4 bytes BE). -/
def Chunk.as_bytes (c : Chunk) : List Nat :=
  u32ToBeBytes c.length ++ c.chunk_type.bytes ++ c.data ++ u32ToBeBytes c.crc

/-- The invariant satisfied by every Rust `Chunk`: its type code is a
well-formed `ChunkType`, `length` equals the byte count of the data, which
fits a `u32`, the data are bytes, and `crc` is the checksum of type bytes
++ data. -/
def ChunkWf (c : Chunk) : Prop :=
  c.chunk_type.wf ∧ c.length = c.chunk_data.length ∧ c.chunk_data.length < 2 ^ 32 ∧
    (∀ b ∈ c.chunk_data, b < 256) ∧ c.crc = crc32 (c.chunk_type.bytes ++ c.chunk_data)

instance (c : Chunk) : Decidable (ChunkWf c) := by
  unfold ChunkWf; infer_instance

/-- Flipping bit `k` of the byte at index `i` of a buffer. -/
def flipBit (l : List Nat) (i k : Nat) : List Nat :=
  l.set i (l.getD i 0 ^^^ 2 ^ k)

/-! ## Container (spec-modelled)

`src/png.rs` is absent from the repository; only `commands.rs` calls it
(`Png::try_from`, `append_chunk`, `chunk_by_type`, `remove_first_chunk`,
`chunks`, `as_bytes`).  The definitions in this section are modelled from
the specification, §3 "Container" and §4.3. -/

/-- Modelled from the spec: the fixed 8-byte PNG signature
`0x89 0x50 0x4E 0x47 0x0D 0x0A 0x1A 0x0A`. -/
def pngHeader : List Nat :=
  [0x89, 0x50, 0x4E, 0x47, 0x0D, 0x0A, 0x1A, 0x0A]

/-- Modelled from the spec: a container is an ordered sequence of chunks
behind the fixed signature. -/
structure Png where
  chunks : List Chunk
  deriving DecidableEq

/-- Modelled from the spec (§4.3, absent `src/png.rs`): the container's
chunk loop "repeatedly parses chunks from the remaining bytes, advancing
the cursor by exactly `12 + chunk.length()` bytes per chunk, until the
buffer is exhausted"; any chunk-level failure propagates. -/
def parseChunks (b : List Nat) : Except PngError (List Chunk) :=
  if h : b = [] then .ok []
  else
    match Chunk.try_from b with
    | .error e => .error e
    | .ok c =>
      match parseChunks (b.drop (12 + c.length)) with
      | .error e => .error e
      | .ok cs => .ok (c :: cs)
termination_by b.length
decreasing_by
  simp only [List.length_drop]
  have hb : b.length ≠ 0 := fun h0 => h (List.length_eq_zero.mp h0)
  omega

/-- Modelled from the spec (§4.3, absent `src/png.rs`): `Png::try_from`
fails with `InvalidSignature` unless the first 8 bytes equal the fixed
signature, then parses the chunks back-to-back. -/
def Png.try_from (b : List Nat) : Except PngError Png :=
  if b.take 8 = pngHeader then
    match parseChunks (b.drop 8) with
    | .error e => .error e
    | .ok cs => .ok ⟨cs⟩
  else .error .invalidSignature

/-- Modelled from the spec (§4.3, absent `src/png.rs`): `Png::as_bytes` is
the signature followed by each chunk's `as_bytes`, in order. -/
def Png.as_bytes (p : Png) : List Nat :=
  pngHeader ++ (p.chunks.map Chunk.as_bytes).flatten

/-! ## Concrete test data -/

/-- The chunk type "RuSt" used throughout the repository's tests. -/
def ruStType : ChunkType :=
  ⟨[82, 117, 83, 116]⟩

/-- ASCII bytes of "This is where your secret message will be!"
(42 bytes). -/
def secretMsg : List Nat :=
  [84, 104, 105, 115, 32, 105, 115, 32, 119, 104, 101, 114, 101, 32, 121,
   111, 117, 114, 32, 115, 101, 99, 114, 101, 116, 32, 109, 101, 115, 115,
   97, 103, 101, 32, 119, 105, 108, 108, 32, 98, 101, 33]

/-! ## Basic lemmas about the byte-level helpers -/

theorem isLetterByte_lt {b : Nat} (h : isLetterByte b = true) : b < 256 := by
  simp only [isLetterByte, Bool.or_eq_true, Bool.and_eq_true, decide_eq_true_eq] at h
  omega

theorem readPad_length (src : List Nat) (n : Nat) : (readPad src n).length = n := by
  simp only [readPad, List.length_append, List.length_take, List.length_replicate]
  omega

theorem readPad_eq_take {src : List Nat} {n : Nat} (h : n ≤ src.length) :
    readPad src n = src.take n := by
  simp [readPad, Nat.sub_eq_zero_of_le h]

theorem readPad_append {src : List Nat} {n : Nat} (extra : List Nat) (h : n ≤ src.length) :
    readPad (src ++ extra) n = readPad src n := by
  rw [readPad_eq_take h, readPad_eq_take (by simp; omega),
    List.take_append_of_le_length h]

theorem u32ToBeBytes_length (n : Nat) : (u32ToBeBytes n).length = 4 := rfl

theorem u32FromBeBytes_toBeBytes {n : Nat} (h : n < 2 ^ 32) :
    u32FromBeBytes (u32ToBeBytes n) = n := by
  simp only [u32ToBeBytes, u32FromBeBytes, List.foldl_cons, List.foldl_nil]
  omega

theorem u32ToBeBytes_mem_lt (n : Nat) : ∀ b ∈ u32ToBeBytes n, b < 256 := by
  simp only [u32ToBeBytes, List.mem_cons, List.not_mem_nil, or_false]
  rintro b (rfl | rfl | rfl | rfl) <;> omega

theorem take_eq_of_length_eq {A : List Nat} (B : List Nat) {n : Nat} (h : A.length = n) :
    (A ++ B).take n = A :=
  List.take_left' h

theorem drop_eq_of_length_eq {A : List Nat} (B : List Nat) {n : Nat} (h : A.length = n) :
    (A ++ B).drop n = B :=
  List.drop_left' h

/-! ## Algebraic properties of the CRC

The reflected CRC-32 step is linear over xor, keeps the state inside 32
bits, and is injective there (the polynomial has its top bit set, so the
conditional xor is recoverable from bit 31).  Consequently the checksum of
a message changes whenever a single bit of the message is flipped. -/

theorem crcStep_zero : crcStep 0 = 0 := by decide

theorem crcStep_xor (a b : Nat) : crcStep (a ^^^ b) = crcStep a ^^^ crcStep b := by
  unfold crcStep
  have hx : (a ^^^ b) % 2 = (a + b) % 2 := Nat.xor_mod_two_eq
  have hd : (a ^^^ b) / 2 = a / 2 ^^^ b / 2 := Nat.xor_div_two
  rcases Nat.mod_two_eq_zero_or_one a with ha | ha <;>
    rcases Nat.mod_two_eq_zero_or_one b with hb | hb
  · have hab : (a + b) % 2 = 0 := by omega
    simp only [hx, hab, ha, hb]
    norm_num [hd]
  · have hab : (a + b) % 2 = 1 := by omega
    simp only [hx, hab, ha, hb]
    norm_num [hd, Nat.xor_assoc]
  · have hab : (a + b) % 2 = 1 := by omega
    simp only [hx, hab, ha, hb]
    norm_num [hd]
    rw [Nat.xor_assoc, Nat.xor_comm (b / 2) 0xEDB88320, ← Nat.xor_assoc]
  · have hab : (a + b) % 2 = 0 := by omega
    simp only [hx, hab, ha, hb]
    norm_num [hd]
    rw [Nat.xor_assoc, Nat.xor_comm 0xEDB88320 (b / 2 ^^^ 0xEDB88320), Nat.xor_assoc,
      Nat.xor_self, Nat.xor_zero]

theorem crcStep_lt {s : Nat} (h : s < 2 ^ 32) : crcStep s < 2 ^ 32 := by
  unfold crcStep
  split
  · exact Nat.xor_lt_two_pow (by omega) (by norm_num)
  · omega

theorem crcStep_inj {a b : Nat} (ha : a < 2 ^ 32) (hb : b < 2 ^ 32)
    (h : crcStep a = crcStep b) : a = b := by
  have hp : (0xEDB88320 : Nat).testBit 31 = true := by decide
  unfold crcStep at h
  rcases Nat.mod_two_eq_zero_or_one a with ha2 | ha2 <;>
    rcases Nat.mod_two_eq_zero_or_one b with hb2 | hb2
  · simp only [ha2, hb2] at h
    norm_num at h
    omega
  · simp only [ha2, hb2] at h
    norm_num at h
    exfalso
    have h31a : (a / 2).testBit 31 = false := Nat.testBit_lt_two_pow (by omega)
    have h31b : (b / 2).testBit 31 = false := Nat.testBit_lt_two_pow (by omega)
    have ht := congrArg (fun x => x.testBit 31) h
    simp only [Nat.testBit_xor, h31a, h31b, hp] at ht
    exact absurd ht (by decide)
  · simp only [ha2, hb2] at h
    norm_num at h
    exfalso
    have h31a : (a / 2).testBit 31 = false := Nat.testBit_lt_two_pow (by omega)
    have h31b : (b / 2).testBit 31 = false := Nat.testBit_lt_two_pow (by omega)
    have ht := congrArg (fun x => x.testBit 31) h
    simp only [Nat.testBit_xor, h31a, h31b, hp] at ht
    exact absurd ht (by decide)
  · simp only [ha2, hb2] at h
    norm_num at h
    omega

theorem crcStepN_xor (n a b : Nat) :
    crcStep^[n] (a ^^^ b) = crcStep^[n] a ^^^ crcStep^[n] b := by
  induction n with
  | zero => simp
  | succ m ih => simp only [Function.iterate_succ_apply', ih, crcStep_xor]

theorem crcStepN_lt {s : Nat} (n : Nat) (h : s < 2 ^ 32) : crcStep^[n] s < 2 ^ 32 := by
  induction n with
  | zero => simpa
  | succ m ih =>
    rw [Function.iterate_succ_apply']
    exact crcStep_lt ih

theorem crcStepN_inj {a b : Nat} (n : Nat) (ha : a < 2 ^ 32) (hb : b < 2 ^ 32)
    (h : crcStep^[n] a = crcStep^[n] b) : a = b := by
  induction n with
  | zero => simpa using h
  | succ m ih =>
    rw [Function.iterate_succ_apply', Function.iterate_succ_apply'] at h
    exact ih (crcStep_inj (crcStepN_lt m ha) (crcStepN_lt m hb) h)

theorem crcStepN_zero_val (n : Nat) : crcStep^[n] 0 = 0 := by
  induction n with
  | zero => rfl
  | succ m ih => rw [Function.iterate_succ_apply', ih, crcStep_zero]

theorem crcStepN_ne_zero {e : Nat} (n : Nat) (h0 : e ≠ 0) (hlt : e < 2 ^ 32) :
    crcStep^[n] e ≠ 0 := fun hz =>
  h0 (crcStepN_inj n hlt (by norm_num) (hz.trans (crcStepN_zero_val n).symm))

theorem crcUpdate_xor_right (s b e : Nat) :
    crcUpdate s (b ^^^ e) = crcUpdate s b ^^^ crcStep^[8] e := by
  unfold crcUpdate
  rw [← Nat.xor_assoc, crcStepN_xor]

theorem crcUpdate_xor_left (s d b : Nat) :
    crcUpdate (s ^^^ d) b = crcUpdate s b ^^^ crcStep^[8] d := by
  unfold crcUpdate
  rw [show s ^^^ d ^^^ b = s ^^^ b ^^^ d by
    rw [Nat.xor_assoc, Nat.xor_comm d b, ← Nat.xor_assoc], crcStepN_xor]

theorem crcUpdate_lt {s b : Nat} (hs : s < 2 ^ 32) (hb : b < 2 ^ 32) :
    crcUpdate s b < 2 ^ 32 :=
  crcStepN_lt 8 (Nat.xor_lt_two_pow hs hb)

theorem foldl_crcUpdate_xor (l : List Nat) (t d : Nat) :
    l.foldl crcUpdate (t ^^^ d) = l.foldl crcUpdate t ^^^ crcStep^[8 * l.length] d := by
  induction l generalizing t d with
  | nil => simp
  | cons b l ih =>
    simp only [List.foldl_cons, List.length_cons]
    rw [crcUpdate_xor_left, ih, ← Function.iterate_add_apply,
      show 8 * l.length + 8 = 8 * (l.length + 1) by ring]

theorem foldl_crcUpdate_lt {l : List Nat} {s : Nat} (hs : s < 2 ^ 32)
    (hl : ∀ b ∈ l, b < 2 ^ 32) : l.foldl crcUpdate s < 2 ^ 32 := by
  induction l generalizing s with
  | nil => simpa
  | cons b l ih =>
    simp only [List.foldl_cons]
    exact ih (crcUpdate_lt hs (hl b (by simp))) fun x hx => hl x (by simp [hx])

theorem crc32_lt {m : List Nat} (hm : ∀ b ∈ m, b < 2 ^ 32) : crc32 m < 2 ^ 32 :=
  Nat.xor_lt_two_pow (foldl_crcUpdate_lt (by norm_num) hm) (by norm_num)

theorem foldl_crcUpdate_set (m : List Nat) (i e s : Nat) (hi : i < m.length) :
    (m.set i (m.getD i 0 ^^^ e)).foldl crcUpdate s
      = m.foldl crcUpdate s ^^^ crcStep^[8 * (m.length - i)] e := by
  induction m generalizing i s with
  | nil => simp at hi
  | cons b l ih =>
    cases i with
    | zero =>
      simp only [List.set_cons_zero, List.getD_cons_zero, List.foldl_cons,
        List.length_cons, Nat.sub_zero]
      rw [crcUpdate_xor_right, foldl_crcUpdate_xor, ← Function.iterate_add_apply,
        show 8 * l.length + 8 = 8 * (l.length + 1) by ring]
    | succ j =>
      simp only [List.set_cons_succ, List.getD_cons_succ, List.foldl_cons,
        List.length_cons, Nat.succ_sub_succ]
      exact ih j (crcUpdate s b) (by simpa using hi)

theorem crc32_set_ne (m : List Nat) (i e : Nat) (hi : i < m.length) (h0 : e ≠ 0)
    (hlt : e < 2 ^ 32) : crc32 (m.set i (m.getD i 0 ^^^ e)) ≠ crc32 m := by
  unfold crc32
  intro h
  have hraw := Nat.xor_left_inj.mp h
  rw [foldl_crcUpdate_set m i e _ hi] at hraw
  have hD := Nat.xor_right_inj.mp (hraw.trans (Nat.xor_zero _).symm)
  exact crcStepN_ne_zero _ h0 hlt hD

/-! ## Computing `Chunk::try_from` on well-shaped buffers -/

theorem readPad_exact {A : List Nat} (B : List Nat) {n : Nat} (h : A.length = n) :
    readPad (A ++ B) n = A := by
  rw [readPad_eq_take (by simp [h]), List.take_left' h]

theorem as_bytes_eq (c : Chunk) :
    c.as_bytes = u32ToBeBytes c.length ++
      (c.chunk_type.typeCode ++ (c.chunk_data ++ u32ToBeBytes c.crc)) := by
  simp [Chunk.as_bytes, Chunk.data, ChunkType.bytes, List.append_assoc]

/-- Running the chunk reader over an exactly laid out buffer
`length ++ type ++ data ++ crc ++ extra`: the type code is checked first,
then the stored CRC is compared with the recomputed checksum; the `extra`
bytes after the CRC field are never read. -/
theorem try_from_layout (T D extra : List Nat) (L v : Nat) (hL : L < 2 ^ 32)
    (hv : v < 2 ^ 32) (hT : T.length = 4) (hD : D.length = L) :
    Chunk.try_from (u32ToBeBytes L ++ (T ++ (D ++ (u32ToBeBytes v ++ extra)))) =
      (if T.all isLetterByte then
        (if v = crc32 (T ++ D) then .ok ⟨L, ⟨T⟩, D, v⟩
         else .error .invalidByteSequence)
       else .error .invalidTypeCode) := by
  have h4 : (u32ToBeBytes L).length = 4 := rfl
  have hLen : Chunk.readLen (u32ToBeBytes L ++ (T ++ (D ++ (u32ToBeBytes v ++ extra)))) = L := by
    unfold Chunk.readLen
    rw [readPad_exact _ h4, u32FromBeBytes_toBeBytes hL]
  have hdrop4 : (u32ToBeBytes L ++ (T ++ (D ++ (u32ToBeBytes v ++ extra)))).drop 4
      = T ++ (D ++ (u32ToBeBytes v ++ extra)) := drop_eq_of_length_eq _ h4
  have hTB : Chunk.readTypeBytes (u32ToBeBytes L ++ (T ++ (D ++ (u32ToBeBytes v ++ extra)))) = T := by
    unfold Chunk.readTypeBytes
    rw [hdrop4, readPad_exact _ hT]
  have hdrop8 : ((u32ToBeBytes L ++ (T ++ (D ++ (u32ToBeBytes v ++ extra)))).drop 4).drop 4
      = D ++ (u32ToBeBytes v ++ extra) := by
    rw [hdrop4, drop_eq_of_length_eq _ hT]
  have hData : Chunk.readData (u32ToBeBytes L ++ (T ++ (D ++ (u32ToBeBytes v ++ extra)))) = D := by
    unfold Chunk.readData
    rw [hdrop8, hLen, readPad_exact _ hD]
  have hCrc : Chunk.readCrc (u32ToBeBytes L ++ (T ++ (D ++ (u32ToBeBytes v ++ extra)))) = v := by
    unfold Chunk.readCrc
    rw [hdrop8, hLen, drop_eq_of_length_eq _ hD, readPad_exact extra (u32ToBeBytes_length v),
      u32FromBeBytes_toBeBytes hv]
  unfold Chunk.try_from ChunkType.try_from
  rw [hLen, hTB, hData, hCrc]
  by_cases hall : T.all isLetterByte
  · simp only [hall, if_true]
    by_cases hcrc : v = crc32 (T ++ D)
    · simp [hcrc]
    · simp [hcrc]
  · simp [hall]

/-- Specialization of `try_from_layout` with no trailing bytes. -/
theorem try_from_layout_nil (T D : List Nat) (L v : Nat) (hL : L < 2 ^ 32)
    (hv : v < 2 ^ 32) (hT : T.length = 4) (hD : D.length = L) :
    Chunk.try_from (u32ToBeBytes L ++ (T ++ (D ++ u32ToBeBytes v))) =
      (if T.all isLetterByte then
        (if v = crc32 (T ++ D) then .ok ⟨L, ⟨T⟩, D, v⟩
         else .error .invalidByteSequence)
       else .error .invalidTypeCode) := by
  have h := try_from_layout T D [] L v hL hv hT hD
  rwa [List.append_nil] at h

/-- A well-formed chunk's serialization parses back to the chunk itself,
with any trailing bytes ignored. -/
theorem try_from_as_bytes_append (c : Chunk) (extra : List Nat) (hw : ChunkWf c) :
    Chunk.try_from (c.as_bytes ++ extra) = .ok c := by
  obtain ⟨⟨hlen4, hletters⟩, hlen, hlt, hdata, hcrc⟩ := hw
  have hmem : ∀ b ∈ c.chunk_type.typeCode ++ c.chunk_data, b < 2 ^ 32 := by
    intro b hb
    rcases List.mem_append.mp hb with hb | hb
    · exact lt_trans (isLetterByte_lt (hletters b hb)) (by norm_num)
    · exact lt_trans (hdata b hb) (by norm_num)
  have hv : c.crc < 2 ^ 32 := by
    rw [hcrc]
    exact crc32_lt hmem
  have hbuf : c.as_bytes ++ extra = u32ToBeBytes c.length ++
      (c.chunk_type.typeCode ++ (c.chunk_data ++ (u32ToBeBytes c.crc ++ extra))) := by
    rw [as_bytes_eq]
    simp [List.append_assoc]
  rw [hbuf, try_from_layout _ _ _ _ _ (hlen ▸ hlt) hv hlen4 hlen.symm,
    if_pos (List.all_eq_true.mpr hletters), if_pos (by rw [hcrc]; rfl)]

/-- Appending bytes after the region the reader touches does not change
the parse result. -/
theorem try_from_append_of_le {b : List Nat} (extra : List Nat)
    (h : 12 + Chunk.readLen b ≤ b.length) :
    Chunk.try_from (b ++ extra) = Chunk.try_from b := by
  have h4 : (4 : Nat) ≤ b.length := by omega
  have hL : Chunk.readLen (b ++ extra) = Chunk.readLen b := by
    unfold Chunk.readLen
    rw [readPad_append extra h4]
  have hdrop4 : (b ++ extra).drop 4 = b.drop 4 ++ extra :=
    List.drop_append_of_le_length h4
  have hT : Chunk.readTypeBytes (b ++ extra) = Chunk.readTypeBytes b := by
    unfold Chunk.readTypeBytes
    rw [hdrop4, readPad_append extra (by simp [List.length_drop]; omega)]
  have hdrop8 : ((b ++ extra).drop 4).drop 4 = (b.drop 4).drop 4 ++ extra := by
    rw [hdrop4, List.drop_append_of_le_length (by simp [List.length_drop]; omega)]
  have hD : Chunk.readData (b ++ extra) = Chunk.readData b := by
    unfold Chunk.readData
    rw [hdrop8, hL, readPad_append extra (by simp [List.length_drop]; omega)]
  have hdropL : (((b ++ extra).drop 4).drop 4).drop (Chunk.readLen (b ++ extra))
      = ((b.drop 4).drop 4).drop (Chunk.readLen b) ++ extra := by
    rw [hdrop8, hL, List.drop_append_of_le_length (by simp [List.length_drop]; omega)]
  have hC : Chunk.readCrc (b ++ extra) = Chunk.readCrc b := by
    unfold Chunk.readCrc
    rw [hdropL, readPad_append extra (by simp [List.length_drop]; omega)]
  unfold Chunk.try_from
  rw [hL, hT, hD, hC]

/-- Inversion: what a successful parse says about the chunk's fields. -/
theorem try_from_ok_inv {b : List Nat} {c : Chunk} (h : Chunk.try_from b = .ok c) :
    c.length = Chunk.readLen b ∧ c.chunk_type = ⟨Chunk.readTypeBytes b⟩ ∧
      c.chunk_data = Chunk.readData b ∧ c.crc = Chunk.readCrc b ∧
      c.crc = crc32 (c.chunk_type.bytes ++ c.chunk_data) := by
  unfold Chunk.try_from at h
  split at h
  · exact absurd h (by simp)
  · rename_i ct' heq
    split at h
    · exact absurd h (by simp)
    · rename_i hcrc
      rw [not_not] at hcrc
      unfold ChunkType.try_from at heq
      split at heq
      · injection heq with heq
        injection h with h
        subst heq
        subst h
        exact ⟨rfl, rfl, rfl, rfl, hcrc⟩
      · exact absurd heq (by simp)

/-- The checksum comparison: with a syntactically valid type code, a
stored CRC differing from the recomputed checksum is rejected with the
checksum-mismatch error `InvalidByteSequence`. -/
theorem try_from_checksum_reject {b : List Nat}
    (hall : (Chunk.readTypeBytes b).all isLetterByte = true)
    (hne : Chunk.readCrc b ≠ crc32 (Chunk.readTypeBytes b ++ Chunk.readData b)) :
    Chunk.try_from b = .error .invalidByteSequence := by
  unfold Chunk.try_from ChunkType.try_from
  rw [if_pos hall]
  simp [hne]

theorem readPad_zero (src : List Nat) : readPad src 0 = [] := by
  simp [readPad]

theorem as_bytes_length {c : Chunk} (hw : ChunkWf c) :
    c.as_bytes.length = 12 + c.length := by
  obtain ⟨⟨hlen4, _⟩, hlen, _, _, _⟩ := hw
  simp only [Chunk.as_bytes, Chunk.data, ChunkType.bytes, List.length_append,
    u32ToBeBytes_length, hlen4, ← hlen]
  omega

/-- A buffer with fewer than 8 bytes always leaves at least one padded
zero in the type-code read, so the parse fails with the type-code error
(never with a read error: the reads cannot fail). -/
theorem try_from_short {b : List Nat} (h : b.length < 8) :
    Chunk.try_from b = .error .invalidTypeCode := by
  have hlen : (b.drop 4).length < 4 := by
    simp only [List.length_drop]
    omega
  have hpos : 4 - (b.drop 4).length ≠ 0 := by omega
  have hT : (Chunk.readTypeBytes b).all isLetterByte = false := by
    unfold Chunk.readTypeBytes readPad
    rw [List.all_append, List.all_replicate, if_neg hpos]
    simp [isLetterByte]
  unfold Chunk.try_from ChunkType.try_from
  rw [hT]
  simp

theorem parseChunks_flatten (cs : List Chunk) (hw : ∀ c ∈ cs, ChunkWf c) :
    parseChunks ((cs.map Chunk.as_bytes).flatten) = .ok cs := by
  induction cs with
  | nil =>
    rw [parseChunks]
    simp
  | cons c cs ih =>
    have hwc := hw c (by simp)
    have hbuf : ((c :: cs).map Chunk.as_bytes).flatten
        = c.as_bytes ++ (cs.map Chunk.as_bytes).flatten := by simp
    have hne : c.as_bytes ++ (cs.map Chunk.as_bytes).flatten ≠ [] := by
      have : (c.as_bytes ++ (cs.map Chunk.as_bytes).flatten).length ≠ 0 := by
        rw [List.length_append, as_bytes_length hwc]
        omega
      exact fun he => this (by rw [he]; rfl)
    rw [hbuf, parseChunks, dif_neg hne, try_from_as_bytes_append c _ hwc]
    have hdrop : (c.as_bytes ++ (cs.map Chunk.as_bytes).flatten).drop (12 + c.length)
        = (cs.map Chunk.as_bytes).flatten :=
      drop_eq_of_length_eq _ (as_bytes_length hwc)
    simp only [hdrop, ih fun x hx => hw x (by simp [hx])]

theorem png_roundtrip (p : Png) (hw : ∀ c ∈ p.chunks, ChunkWf c) :
    Png.try_from p.as_bytes = .ok p := by
  unfold Png.try_from Png.as_bytes
  rw [take_eq_of_length_eq _ (show pngHeader.length = 8 from rfl), if_pos rfl,
    drop_eq_of_length_eq _ (show pngHeader.length = 8 from rfl),
    parseChunks_flatten _ hw]

theorem isLetterByte_lt_128 {b : Nat} (h : isLetterByte b = true) : b < 128 := by
  simp only [isLetterByte, Bool.or_eq_true, Bool.and_eq_true, decide_eq_true_eq] at h
  omega

theorem strByteLength_of_letters {s : List Nat} (h : ∀ c ∈ s, isLetterByte c = true) :
    strByteLength s = s.length := by
  induction s with
  | nil => rfl
  | cons c t ih =>
    have hc : utf8Len c = 1 := by
      unfold utf8Len
      rw [if_pos (isLetterByte_lt_128 (h c (by simp)))]
    simp only [strByteLength, List.map_cons, List.sum_cons, List.length_cons, hc] at *
    rw [ih fun x hx => h x (by simp [hx])]
    omega

/-! ## The claims -/

/-- C6: `is_valid` returns true iff all 4 bytes are ASCII letters and bit 5
(value 0x20) of byte index 2 is clear; concretely "Rust" is not valid while
"RuSt" is. -/
theorem chunk_type_is_valid_iff :
    (∀ ct : ChunkType, ct.typeCode.length = 4 →
      (ct.is_valid = true ↔
        (∀ b ∈ ct.typeCode, isLetterByte b = true) ∧
          ct.typeCode.getD 2 0 &&& (1 <<< 5) = 0)) ∧
    ChunkType.is_valid ⟨[82, 117, 115, 116]⟩ = false ∧ ruStType.is_valid = true := by
  refine ⟨?_, by decide, by decide⟩
  intro ct _h4
  unfold ChunkType.is_valid ChunkType.is_reserved_bit_valid
  by_cases hbit : ct.typeCode.getD 2 0 &&& (1 <<< 5) = 0
  · simp [hbit, List.all_eq_true]
  · simp [hbit, List.all_eq_true]

/-- Witness for C6 at the type "RuSt". -/
theorem chunk_type_is_valid_iff_witness :
    ruStType.typeCode.length = 4 ∧
      (ruStType.is_valid = true ↔
        (∀ b ∈ ruStType.typeCode, isLetterByte b = true) ∧
          ruStType.typeCode.getD 2 0 &&& (1 <<< 5) = 0) :=
  ⟨by decide, chunk_type_is_valid_iff.1 ruStType (by decide)⟩

/-- C7: the four property queries test bit 5 (0x20) of bytes 0 to 3
(`is_safe_to_copy` wants the bit set, the others clear), and the concrete
values for "RuSt", "ruSt", "RUSt", "Rust" and "RuST". -/
theorem chunk_type_property_bits :
    (∀ ct : ChunkType, ct.typeCode.length = 4 →
      ((ct.is_critical = true ↔ ct.typeCode.getD 0 0 &&& (1 <<< 5) = 0) ∧
       (ct.is_public = true ↔ ct.typeCode.getD 1 0 &&& (1 <<< 5) = 0) ∧
       (ct.is_reserved_bit_valid = true ↔ ct.typeCode.getD 2 0 &&& (1 <<< 5) = 0) ∧
       (ct.is_safe_to_copy = true ↔ ct.typeCode.getD 3 0 &&& (1 <<< 5) ≠ 0))) ∧
    ruStType.is_critical = true ∧ ChunkType.is_critical ⟨[114, 117, 83, 116]⟩ = false ∧
    ChunkType.is_public ⟨[82, 85, 83, 116]⟩ = true ∧ ruStType.is_public = false ∧
    ruStType.is_reserved_bit_valid = true ∧
    ChunkType.is_reserved_bit_valid ⟨[82, 117, 115, 116]⟩ = false ∧
    ChunkType.is_safe_to_copy ⟨[82, 117, 83, 84]⟩ = false ∧
    ruStType.is_safe_to_copy = true := by
  refine ⟨?_, by decide, by decide, by decide, by decide, by decide, by decide,
    by decide, by decide⟩
  intro ct _h4
  unfold ChunkType.is_critical ChunkType.is_public ChunkType.is_reserved_bit_valid
    ChunkType.is_safe_to_copy
  refine ⟨?_, ?_, ?_, ?_⟩ <;> split <;> simp_all

/-- Witness for C7 at the type "RuSt". -/
theorem chunk_type_property_bits_witness :
    ruStType.typeCode.length = 4 ∧
      ((ruStType.is_critical = true ↔ ruStType.typeCode.getD 0 0 &&& (1 <<< 5) = 0) ∧
       (ruStType.is_public = true ↔ ruStType.typeCode.getD 1 0 &&& (1 <<< 5) = 0) ∧
       (ruStType.is_reserved_bit_valid = true ↔
         ruStType.typeCode.getD 2 0 &&& (1 <<< 5) = 0) ∧
       (ruStType.is_safe_to_copy = true ↔ ruStType.typeCode.getD 3 0 &&& (1 <<< 5) ≠ 0)) :=
  ⟨by decide, chunk_type_property_bits.1 ruStType (by decide)⟩

/-- C8: string parsing succeeds exactly on 4 ASCII-letter characters and
otherwise fails with `InvalidTypeCode`; byte construction succeeds exactly
on 4 ASCII-letter bytes; neither enforces the reserved-bit rule, so "Rust"
is constructed without error on both paths. -/
theorem chunk_type_construction :
    (∀ s : List Nat, ¬ (s.length = 4 ∧ ∀ c ∈ s, isLetterByte c = true) →
      ChunkType.from_str s = .error .invalidTypeCode) ∧
    (∀ s : List Nat, s.length = 4 → (∀ c ∈ s, isLetterByte c = true) →
      ChunkType.from_str s = .ok ⟨s⟩) ∧
    (∀ b : List Nat, ¬ (∀ x ∈ b, isLetterByte x = true) →
      ChunkType.try_from b = .error .invalidTypeCode) ∧
    (∀ b : List Nat, (∀ x ∈ b, isLetterByte x = true) → ChunkType.try_from b = .ok ⟨b⟩) ∧
    ChunkType.from_str [82, 117, 115, 116] = .ok ⟨[82, 117, 115, 116]⟩ ∧
    ChunkType.try_from [82, 117, 115, 116] = .ok ⟨[82, 117, 115, 116]⟩ := by
  refine ⟨?_, ?_, ?_, ?_, by decide, by decide⟩
  · intro s hns
    unfold ChunkType.from_str
    by_cases hb : strByteLength s = 4
    · rw [if_neg (by omega)]
      by_cases hall : s.all isLetterByte
      · exact absurd ⟨by rw [← strByteLength_of_letters (List.all_eq_true.mp hall), hb],
          List.all_eq_true.mp hall⟩ hns
      · simp [hall]
    · simp [hb]
  · intro s h4 hlet
    unfold ChunkType.from_str
    rw [if_neg fun hne => hne (by rw [strByteLength_of_letters hlet, h4]),
      if_pos (List.all_eq_true.mpr hlet)]
  · intro b hnot
    unfold ChunkType.try_from
    rw [if_neg fun hall => hnot (List.all_eq_true.mp hall)]
  · intro b hlet
    unfold ChunkType.try_from
    rw [if_pos (List.all_eq_true.mpr hlet)]

/-- Witness for C8: the reserved-bit-invalid type "Rust" is constructed by
both paths, and a non-letter string is rejected. -/
theorem chunk_type_construction_witness :
    ChunkType.from_str [82, 117, 83, 116] = .ok ⟨[82, 117, 83, 116]⟩ ∧
    ChunkType.try_from [82, 117, 83, 116] = .ok ⟨[82, 117, 83, 116]⟩ ∧
    ChunkType.from_str [82, 117, 49, 116] = .error .invalidTypeCode :=
  ⟨chunk_type_construction.2.1 [82, 117, 83, 116] (by decide) (by decide),
   chunk_type_construction.2.2.2.1 [82, 117, 83, 116] (by decide),
   chunk_type_construction.1 [82, 117, 49, 116] (by decide)⟩

/-- C4 counterexample: the literal message is 42 bytes, not the 44 the
spec states; moreover `length() = data().len()` fails for data of length
`2^32`, where the `as u32` cast truncates. -/
theorem chunk_vector_cex :
    secretMsg.length = 42 ∧ (42 : Nat) ≠ 44 ∧
      (Chunk.new ruStType (List.replicate (2 ^ 32) 0)).length
        ≠ (List.replicate (2 ^ 32) 0).length := by
  refine ⟨by decide, by decide, ?_⟩
  have h : (Chunk.new ruStType (List.replicate (2 ^ 32) 0)).length = 2 ^ 32 % 2 ^ 32 := by
    simp only [Chunk.new, List.length_replicate]
  rw [h, Nat.mod_self, List.length_replicate]
  norm_num

/-- C4 (amended): `length()` equals `data().len()` whenever the data
length fits a `u32`; the literal message "This is where your secret
message will be!" is 42 bytes, the chunk built from it with type "RuSt"
has `length = 42` and `crc = 2882656334`. -/
theorem chunk_new_length_crc :
    (∀ (ct : ChunkType) (data : List Nat), data.length < 2 ^ 32 →
      (Chunk.new ct data).length = data.length) ∧
    secretMsg.length = 42 ∧ (Chunk.new ruStType secretMsg).length = 42 ∧
    (Chunk.new ruStType secretMsg).crc = 2882656334 := by
  refine ⟨?_, by decide, by decide, by decide⟩
  intro ct data h
  simp only [Chunk.new]
  exact Nat.mod_eq_of_lt h

/-- Witness for C4 at the "RuSt" test vector. -/
theorem chunk_new_length_crc_witness :
    secretMsg.length < 2 ^ 32 ∧ (Chunk.new ruStType secretMsg).length = secretMsg.length :=
  ⟨by decide, chunk_new_length_crc.1 ruStType secretMsg (by decide)⟩

/-- C5: `new` computes `crc` as the CRC-32/ISO-HDLC checksum of the type
bytes followed by the data; every successfully parsed chunk satisfies the
same invariant; and a parse whose stored CRC differs from the recomputed
checksum is rejected with the checksum-mismatch error. -/
theorem chunk_crc_invariant :
    (∀ (ct : ChunkType) (data : List Nat),
      (Chunk.new ct data).crc = crc32 (ct.bytes ++ data)) ∧
    (∀ (b : List Nat) (c : Chunk), Chunk.try_from b = .ok c →
      c.crc = crc32 (c.chunk_type.bytes ++ c.chunk_data)) ∧
    (∀ b : List Nat, (Chunk.readTypeBytes b).all isLetterByte = true →
      Chunk.readCrc b ≠ crc32 (Chunk.readTypeBytes b ++ Chunk.readData b) →
      Chunk.try_from b = .error .invalidByteSequence) :=
  ⟨fun _ _ => rfl, fun _ _ h => (try_from_ok_inv h).2.2.2.2,
   fun _ h1 h2 => try_from_checksum_reject h1 h2⟩

/-- Witness for C5: the parsed serialization of the "RuSt" chunk with
empty data satisfies the CRC invariant, and corrupting its stored CRC is
rejected. -/
theorem chunk_crc_invariant_witness :
    (Chunk.new ruStType []).crc
        = crc32 ((Chunk.new ruStType []).chunk_type.bytes ++ (Chunk.new ruStType []).chunk_data) ∧
      Chunk.try_from [0, 0, 0, 0, 82, 117, 83, 116, 0, 0, 0, 0]
        = .error .invalidByteSequence := by
  have h : Chunk.try_from (Chunk.new ruStType []).as_bytes = .ok (Chunk.new ruStType []) := by
    decide
  exact ⟨chunk_crc_invariant.2.1 _ _ h,
    chunk_crc_invariant.2.2 _ (by decide) (by decide)⟩

/-- A buffer whose length field decodes to 0 but whose "data" region
holds at least 4 further bytes: the parser reads no data and takes the
next 4 bytes as the stored CRC. -/
theorem try_from_len_zero_pad (T R CB : List Nat) (hT : T.length = 4)
    (h4 : 4 ≤ R.length) (hall : T.all isLetterByte = true)
    (hne : u32FromBeBytes (R.take 4) ≠ crc32 T) :
    Chunk.try_from (u32ToBeBytes 0 ++ (T ++ (R ++ CB))) = .error .invalidByteSequence := by
  have hLen : Chunk.readLen (u32ToBeBytes 0 ++ (T ++ (R ++ CB))) = 0 := by
    unfold Chunk.readLen
    rw [readPad_exact _ (u32ToBeBytes_length 0)]
    rfl
  have hdrop4 : (u32ToBeBytes 0 ++ (T ++ (R ++ CB))).drop 4 = T ++ (R ++ CB) :=
    drop_eq_of_length_eq _ (u32ToBeBytes_length 0)
  have hTB : Chunk.readTypeBytes (u32ToBeBytes 0 ++ (T ++ (R ++ CB))) = T := by
    unfold Chunk.readTypeBytes
    rw [hdrop4, readPad_exact _ hT]
  have hdrop8 : ((u32ToBeBytes 0 ++ (T ++ (R ++ CB))).drop 4).drop 4 = R ++ CB := by
    rw [hdrop4, drop_eq_of_length_eq _ hT]
  have hD : Chunk.readData (u32ToBeBytes 0 ++ (T ++ (R ++ CB))) = [] := by
    unfold Chunk.readData
    rw [hdrop8, hLen, readPad_zero]
  have hC : Chunk.readCrc (u32ToBeBytes 0 ++ (T ++ (R ++ CB)))
      = u32FromBeBytes (R.take 4) := by
    unfold Chunk.readCrc
    rw [hdrop8, hLen, List.drop_zero,
      readPad_eq_take (by rw [List.length_append]; omega),
      List.take_append_of_le_length h4]
  exact try_from_checksum_reject (by rw [hTB]; exact hall)
    (by rw [hC, hTB, hD, List.append_nil]; exact hne)

/-- C1 counterexample: for data of length `2^32` the `as u32` cast makes
the serialized length field 0, so parsing the serialization reads no data,
takes four data zeros as the stored CRC, and fails the checksum check —
the round trip does not even parse. -/
theorem chunk_roundtrip_cex :
    Chunk.try_from (Chunk.new ruStType (List.replicate (2 ^ 32) 0)).as_bytes
      = .error .invalidByteSequence := by
  have hcl : (Chunk.new ruStType (List.replicate (2 ^ 32) 0)).length = 0 := by
    simp only [Chunk.new, List.length_replicate]
    exact Nat.mod_self _
  have hbuf : (Chunk.new ruStType (List.replicate (2 ^ 32) 0)).as_bytes
      = u32ToBeBytes 0 ++ ([82, 117, 83, 116] ++ (List.replicate (2 ^ 32) (0 : Nat) ++
          u32ToBeBytes (Chunk.new ruStType (List.replicate (2 ^ 32) 0)).crc)) := by
    rw [as_bytes_eq, hcl]
    rfl
  rw [hbuf]
  refine try_from_len_zero_pad _ _ _ rfl (by rw [List.length_replicate]; omega) (by decide) ?_
  rw [List.take_replicate, show min 4 (2 ^ 32) = 4 by omega]
  decide

/-- C1 (amended): for every chunk built by `Chunk::new` from a well-formed
chunk type and byte data whose length fits a `u32`, parsing the
serialization succeeds and returns a chunk equal to the original in all
four fields. -/
theorem chunk_roundtrip (ct : ChunkType) (data : List Nat) (hwf : ct.wf)
    (hbytes : ∀ b ∈ data, b < 256) (hlen : data.length < 2 ^ 32) :
    Chunk.try_from (Chunk.new ct data).as_bytes = .ok (Chunk.new ct data) := by
  have hw : ChunkWf (Chunk.new ct data) :=
    ⟨hwf, Nat.mod_eq_of_lt hlen, hlen, hbytes, rfl⟩
  simpa using try_from_as_bytes_append (Chunk.new ct data) [] hw

/-- Witness for C1 at the "RuSt" test vector. -/
theorem chunk_roundtrip_witness :
    ruStType.wf ∧
      Chunk.try_from (Chunk.new ruStType secretMsg).as_bytes
        = .ok (Chunk.new ruStType secretMsg) :=
  ⟨by decide, chunk_roundtrip ruStType secretMsg (by decide) (by decide) (by decide)⟩

/-- C2 counterexample: the empty buffer fails with the type-code error
(not a read/length error), and an 11-byte buffer — shorter than the 12
bytes the claim says must fail — parses successfully, because the missing
low CRC byte is zero-padded and the type "AABI" happens to have a CRC
whose low byte is 0. -/
theorem chunk_parse_short_cex :
    Chunk.try_from [] = .error .invalidTypeCode ∧
      Chunk.try_from [0, 0, 0, 0, 65, 65, 66, 73, 190, 251, 211]
        = .ok ⟨0, ⟨[65, 65, 66, 73]⟩, [], 3204174592⟩ ∧
      ([0, 0, 0, 0, 65, 65, 66, 73, 190, 251, 211] : List Nat).length < 12 := by
  refine ⟨by decide, by decide, by decide⟩

/-- C2 (amended): the reads of `Chunk::try_from` zero-pad short buffers
and never produce a read/length error, so parsing never panics and never
reports truncation; every buffer shorter than 8 bytes fails with
`InvalidTypeCode` (a padded zero type byte is not a letter), while buffers
of 8 to 11 bytes may fail with either error kind or even parse
successfully. -/
theorem chunk_parse_short (b : List Nat) (h : b.length < 8) :
    Chunk.try_from b = .error .invalidTypeCode :=
  try_from_short h

/-- Witness for C2 at the empty buffer. -/
theorem chunk_parse_short_witness :
    ([] : List Nat).length < 8 ∧ Chunk.try_from [] = .error .invalidTypeCode :=
  ⟨by decide, chunk_parse_short [] (by decide)⟩

theorem getD_append_mid {A : List Nat} (rest : List Nat) {p n : Nat} (hA : A.length = n)
    (hle : n ≤ p) : (A ++ rest).getD p 0 = rest.getD (p - n) 0 := by
  rw [List.getD_append_right _ _ _ _ (by omega), hA]

theorem getD_append_pre {M : List Nat} (CB : List Nat) {j : Nat} (hj : j < M.length) :
    (M ++ CB).getD j 0 = M.getD j 0 :=
  List.getD_append _ _ _ _ hj

theorem as_bytes_eq2 (c : Chunk) :
    c.as_bytes = u32ToBeBytes c.length ++
      ((c.chunk_type.typeCode ++ c.chunk_data) ++ u32ToBeBytes c.crc) := by
  simp [Chunk.as_bytes, Chunk.data, ChunkType.bytes, List.append_assoc]

/-- C3 counterexample: flipping bit 6 of the first type byte of the
serialized "RuSt" chunk with empty data turns 'R' into a non-letter, and
parsing fails with `InvalidTypeCode`, not with the checksum-mismatch kind
`InvalidByteSequence`. -/
theorem chunk_bitflip_cex :
    Chunk.try_from (flipBit (Chunk.new ruStType []).as_bytes 4 6)
        = .error .invalidTypeCode ∧
      PngError.invalidTypeCode ≠ PngError.invalidByteSequence := by
  refine ⟨by decide, by decide⟩

/-- C3 (amended): flipping any single bit of a serialized chunk inside
the data region, or inside the type region when the flipped byte is still
an ASCII letter, makes parsing fail with the checksum-mismatch error
`InvalidByteSequence`; a type-region flip that destroys letterhood fails
earlier with `InvalidTypeCode`. -/
theorem chunk_bitflip (c : Chunk) (p k : Nat) (hw : ChunkWf c) (hk : k < 8)
    (hp4 : 4 ≤ p) (hp : p < 8 + c.chunk_data.length) :
    ((8 ≤ p ∨ isLetterByte (c.as_bytes.getD p 0 ^^^ 2 ^ k) = true) →
      Chunk.try_from (flipBit c.as_bytes p k) = .error .invalidByteSequence) ∧
    (isLetterByte (c.as_bytes.getD p 0 ^^^ 2 ^ k) = false → p < 8 →
      Chunk.try_from (flipBit c.as_bytes p k) = .error .invalidTypeCode) := by
  obtain ⟨⟨hlen4, hletters⟩, hlen, hlt, hdata, hcrc⟩ := hw
  have hmem : ∀ b ∈ c.chunk_type.typeCode ++ c.chunk_data, b < 2 ^ 32 := by
    intro b hb
    rcases List.mem_append.mp hb with hb | hb
    · exact lt_trans (isLetterByte_lt (hletters b hb)) (by norm_num)
    · exact lt_trans (hdata b hb) (by norm_num)
  have hv : c.crc < 2 ^ 32 := by
    rw [hcrc]
    exact crc32_lt hmem
  have hcrcM : c.crc = crc32 (c.chunk_type.typeCode ++ c.chunk_data) := hcrc
  have hL : c.length < 2 ^ 32 := by omega
  have hMlen : (c.chunk_type.typeCode ++ c.chunk_data).length = 4 + c.chunk_data.length := by
    rw [List.length_append, hlen4]
  have hgetD : c.as_bytes.getD p 0 = (c.chunk_type.typeCode ++ c.chunk_data).getD (p - 4) 0 := by
    rw [as_bytes_eq2, getD_append_mid _ (u32ToBeBytes_length c.length) hp4,
      getD_append_pre _ (by omega)]
  have hflip : flipBit c.as_bytes p k = u32ToBeBytes c.length ++
      ((c.chunk_type.typeCode ++ c.chunk_data).set (p - 4)
        ((c.chunk_type.typeCode ++ c.chunk_data).getD (p - 4) 0 ^^^ 2 ^ k)
        ++ u32ToBeBytes c.crc) := by
    unfold flipBit
    rw [hgetD, as_bytes_eq2,
      List.set_append_right _ _ (by rw [u32ToBeBytes_length]; exact hp4),
      u32ToBeBytes_length, List.set_append_left _ _ (by omega)]
  have hne_crc : crc32 ((c.chunk_type.typeCode ++ c.chunk_data).set (p - 4)
      ((c.chunk_type.typeCode ++ c.chunk_data).getD (p - 4) 0 ^^^ 2 ^ k))
      ≠ crc32 (c.chunk_type.typeCode ++ c.chunk_data) :=
    crc32_set_ne _ _ _ (by omega) (by positivity)
      (Nat.pow_lt_pow_right (by norm_num) (by omega))
  refine ⟨?_, ?_⟩
  · intro hcase
    rcases Nat.lt_or_ge p 8 with h8 | h8
    · have hlet : isLetterByte
          ((c.chunk_type.typeCode ++ c.chunk_data).getD (p - 4) 0 ^^^ 2 ^ k) = true := by
        rcases hcase with hc | hc
        · omega
        · rwa [hgetD] at hc
      have hsplit : (c.chunk_type.typeCode ++ c.chunk_data).set (p - 4)
          ((c.chunk_type.typeCode ++ c.chunk_data).getD (p - 4) 0 ^^^ 2 ^ k)
          = c.chunk_type.typeCode.set (p - 4)
              ((c.chunk_type.typeCode ++ c.chunk_data).getD (p - 4) 0 ^^^ 2 ^ k)
            ++ c.chunk_data :=
        List.set_append_left _ _ (by omega)
      rw [hflip, hsplit, List.append_assoc,
        try_from_layout_nil _ _ c.length c.crc hL hv
          (by rw [List.length_set, hlen4]) hlen.symm,
        if_pos (List.all_eq_true.mpr fun x hx =>
          (List.mem_or_eq_of_mem_set hx).elim (hletters x) fun he => he ▸ hlet),
        if_neg ?_]
      intro he
      exact hne_crc (by rw [hsplit, ← he, hcrcM])
    · have hsplit : (c.chunk_type.typeCode ++ c.chunk_data).set (p - 4)
          ((c.chunk_type.typeCode ++ c.chunk_data).getD (p - 4) 0 ^^^ 2 ^ k)
          = c.chunk_type.typeCode ++ c.chunk_data.set (p - 4 - 4)
              ((c.chunk_type.typeCode ++ c.chunk_data).getD (p - 4) 0 ^^^ 2 ^ k) := by
        rw [List.set_append_right _ _ (by omega), hlen4]
      rw [hflip, hsplit, List.append_assoc,
        try_from_layout_nil _ _ c.length c.crc hL hv hlen4
          (by rw [List.length_set]; exact hlen.symm),
        if_pos (List.all_eq_true.mpr hletters), if_neg ?_]
      intro he
      exact hne_crc (by rw [hsplit, ← he, hcrcM])
  · intro hnl h8
    have hnl' : isLetterByte
        ((c.chunk_type.typeCode ++ c.chunk_data).getD (p - 4) 0 ^^^ 2 ^ k) = false := by
      rwa [hgetD] at hnl
    have hsplit : (c.chunk_type.typeCode ++ c.chunk_data).set (p - 4)
        ((c.chunk_type.typeCode ++ c.chunk_data).getD (p - 4) 0 ^^^ 2 ^ k)
        = c.chunk_type.typeCode.set (p - 4)
            ((c.chunk_type.typeCode ++ c.chunk_data).getD (p - 4) 0 ^^^ 2 ^ k)
          ++ c.chunk_data :=
      List.set_append_left _ _ (by omega)
    rw [hflip, hsplit, List.append_assoc,
      try_from_layout_nil _ _ c.length c.crc hL hv
        (by rw [List.length_set, hlen4]) hlen.symm,
      if_neg ?_]
    intro hall
    have hmem' := List.mem_set c.chunk_type.typeCode (p - 4) (by omega)
      ((c.chunk_type.typeCode ++ c.chunk_data).getD (p - 4) 0 ^^^ 2 ^ k)
    have hfalse := List.all_eq_true.mp hall _ hmem'
    rw [hnl'] at hfalse
    exact absurd hfalse (by decide)

/-- Witness for C3: on the serialized "RuSt" chunk with empty data,
flipping bit 0 of the first type byte ('R' becomes 'S') is rejected with
the checksum-mismatch error, and flipping bit 6 (leaving a non-letter) is
rejected with the type-code error. -/
theorem chunk_bitflip_witness :
    Chunk.try_from (flipBit (Chunk.new ruStType []).as_bytes 4 0)
        = .error .invalidByteSequence ∧
      Chunk.try_from (flipBit (Chunk.new ruStType []).as_bytes 4 6)
        = .error .invalidTypeCode := by
  have hw : ChunkWf (Chunk.new ruStType []) := by decide
  exact ⟨(chunk_bitflip _ 4 0 hw (by decide) (by decide) (by decide)).1 (Or.inr (by decide)),
    (chunk_bitflip _ 4 6 hw (by decide) (by decide) (by decide)).2 (by decide) (by decide)⟩

/-- C9 (spec-modelled container): parsing the serialization of a container
of well-formed chunks succeeds and returns the container itself — so for
every well-formed buffer (one of the form `png.as_bytes`), the parsed
container's `serialize` reproduces the buffer byte-for-byte. -/
theorem png_parse_serialize (p : Png) (hw : ∀ c ∈ p.chunks, ChunkWf c) :
    Png.try_from p.as_bytes = .ok p :=
  png_roundtrip p hw

/-- Witness for C9 at a container holding one "RuSt" chunk. -/
theorem png_parse_serialize_witness :
    Png.try_from (Png.as_bytes ⟨[Chunk.new ruStType []]⟩)
      = .ok ⟨[Chunk.new ruStType []]⟩ :=
  png_parse_serialize ⟨[Chunk.new ruStType []]⟩ (by decide)

/-- C10: a buffer whose first `12 + length` bytes parse as a chunk parses
to the same chunk after appending arbitrary trailing bytes — the reader
never looks past the CRC field. -/
theorem chunk_trailing_bytes (pre extra : List Nat) (c : Chunk)
    (h : Chunk.try_from pre = .ok c) (hlen : pre.length = 12 + c.length) :
    Chunk.try_from (pre ++ extra) = .ok c := by
  have h1 := (try_from_ok_inv h).1
  rw [try_from_append_of_le extra (by rw [← h1]; omega), h]

/-- Witness for C10: the serialized "RuSt" chunk with three junk bytes
appended still parses to the same chunk. -/
theorem chunk_trailing_bytes_witness :
    Chunk.try_from ((Chunk.new ruStType []).as_bytes ++ [1, 2, 3])
      = .ok (Chunk.new ruStType []) :=
  chunk_trailing_bytes _ _ _ (by decide) (by decide)

end Pngme
